import Mathlib

/-!
Verification of the "Maxim's Ratings" single-page client (src/script.js).

The development shallowly embeds the filter/sort/render pipeline and the
navigation/fetch state machine of the current revision of `script.js`
(the first revision in the file; the claims reference its line numbers).

Modelling conventions:
* JavaScript numbers are embedded as the program can produce them: the
  record mapper's score expression yields a `JsFloat` (`NaN`, an
  infinity, or a finite value as `ℚ`); a view item's score is the
  `NaN`-free `XRat` (the mapper provably never emits `NaN`, but can emit
  `±Infinity`); comparator returns are read by `SortCompare`'s rule that
  a `NaN` result counts as `+0`, a tie.
* Strings are Lean `String`s; all string operations used by the code
  (`trim`, `toLowerCase`, `includes`, `localeCompare`) are modelled by
  executable functions on the underlying character lists, so concrete
  instances evaluate inside the kernel.  `localeCompare` is modelled as
  code-point lexicographic comparison, `toLowerCase` as per-character
  ASCII lowering.
* `Array.prototype.sort(cmp)` (stable since ES2019) is modelled by a
  stable structural insertion sort `sortLe` over `le a b := (cmp a b).isLE`.
* `Date.parse` is modelled on the Date Time String Format that ECMA-262
  mandates (`YYYY[-MM[-DD]][THH:mm[:ss[.sss]][Z|±HH:mm]]`, expanded
  years included); date-only forms are UTC, and a date-time without an
  offset — local time in JavaScript — is read with the host time zone
  fixed to UTC.  Text outside the mandated format falls back to
  implementation-defined engine parsing and is treated as unparseable
  (`NaN`), which the code's `|| 0` fallback turns into the epoch 0.
-/

/-! ## Generic comparison helpers -/

/-- Three-way comparison on a linear order, the sign abstraction for the
numeric comparator returns in `applySort`. -/
def cmpLin {K : Type} [LinearOrder K] (x y : K) : Ordering :=
  if x < y then .lt else if x = y then .eq else .gt

/-- Character comparison by code point (model of the string collation used
by `localeCompare` in the default locale for plain ASCII titles). -/
def cmpChar (c d : Char) : Ordering := cmpLin c d

/-- Lexicographic comparison of character lists. -/
def cmpChars : List Char → List Char → Ordering
  | [], [] => .eq
  | [], _ :: _ => .lt
  | _ :: _, [] => .gt
  | c :: cs, d :: ds => (cmpChar c d).then (cmpChars cs ds)

/-- Model of `String.prototype.localeCompare` as an `Ordering`:
code-point lexicographic comparison of the two strings. -/
def cmpStr (s t : String) : Ordering := cmpChars s.data t.data

/-- Lexicographic combination of two comparators (the "compare, and on a
tie fall through to the next key" pattern of the comparator chains). -/
def lexCmp {α : Type} (c₁ c₂ : α → α → Ordering) (a b : α) : Ordering :=
  (c₁ a b).then (c₂ a b)

/-- Ascending comparator induced by a key function. -/
def byKey {α K : Type} [LinearOrder K] (f : α → K) (a b : α) : Ordering :=
  cmpLin (f a) (f b)

/-- Descending comparator induced by a key function. -/
def byKeyDesc {α K : Type} [LinearOrder K] (f : α → K) (a b : α) : Ordering :=
  cmpLin (f b) (f a)

/-! ## Stable sorting (model of `Array.prototype.sort`) -/

/-- Insert `x` into `l` in front of the first element `y` with `le x y`;
ties therefore keep the earlier element (here `x`) first, which is the
stability guarantee of `Array.prototype.sort`. -/
def insertLe {α : Type} (le : α → α → Bool) (x : α) : List α → List α
  | [] => [x]
  | y :: ys => if le x y then x :: y :: ys else y :: insertLe le x ys

/-- Stable insertion sort by a boolean "less or equal" test. -/
def sortLe {α : Type} (le : α → α → Bool) : List α → List α
  | [] => []
  | x :: xs => insertLe le x (sortLe le xs)

/-- Model of `list.sort(cmp)` for a consistent JavaScript comparator:
stable sort by "comparator result is not positive". -/
def jsSortBy {α : Type} (cmp : α → α → Ordering) (l : List α) : List α :=
  sortLe (fun a b => (cmp a b).isLE) l

/-! ## String helpers used by script.js -/

/-- Model of `String.prototype.trim`: strip leading and trailing
whitespace characters. -/
def jsTrim (s : String) : String :=
  ⟨((s.data.dropWhile Char.isWhitespace).reverse.dropWhile Char.isWhitespace).reverse⟩

/-- Model of `x?.trim() || ''` applied to an optional CSV cell:
a missing cell becomes the empty string. -/
def jsTrimOpt (v : Option String) : String :=
  match v with
  | none => ""
  | some s => jsTrim s

/-- Model of `String.prototype.toLowerCase` (per-character ASCII lowering). -/
def lowerStr (s : String) : String := ⟨s.data.map Char.toLower⟩

/-- `normalize` from script.js (line 203): `(s || '').toString().toLowerCase()`
applied to a possibly missing control value. -/
def jsNormalize (s : Option String) : String := lowerStr (s.getD "")

/-- Boolean substring test on character lists (model of
`String.prototype.includes`): `needle` occurs contiguously in the list. -/
def listInfix (needle : List Char) : List Char → Bool
  | [] => needle.isPrefixOf []
  | c :: t => needle.isPrefixOf (c :: t) || listInfix needle t

/-- Model of `hay.includes(needle)`. -/
def strIncludes (hay needle : String) : Bool := listInfix needle.data hay.data

/-! ## JavaScript numeric parsing -/

/-- A JavaScript number as far as the record mapper can observe it:
`NaN`, the two infinities, or a finite value (embedded as `ℚ`). -/
inductive JsFloat : Type
  | nan : JsFloat
  | inf : JsFloat
  | negInf : JsFloat
  | fin : ℚ → JsFloat
deriving DecidableEq

/-- `Number.isFinite`. -/
def JsFloat.isFinite : JsFloat → Bool
  | .fin _ => true
  | _ => false

/-- The finite value of a `JsFloat`, defaulting to 0. -/
def JsFloat.toRat : JsFloat → ℚ
  | .fin q => q
  | _ => 0

/-- Model of `v || 0` on a number: the falsy values `NaN` and `0` become
`0`, everything else (including the infinities) passes through.
(The JavaScript value `-0` is not distinguished from `0` here.) -/
def jsOrZero : JsFloat → JsFloat
  | .nan => .fin 0
  | v => v

/-- Decimal digit test and value. -/
def digitVal (c : Char) : Nat := c.val.toNat - 48

/-- Numeric value of a digit list read most-significant first. -/
def digitsToNat (ds : List Char) : Nat :=
  ds.foldl (fun acc c => 10 * acc + digitVal c) 0

/-- Parse an optional sign character, returning the sign as `1` or `-1`
together with the remaining characters. -/
def parseSign : List Char → Int × List Char
  | '+' :: t => (1, t)
  | '-' :: t => (-1, t)
  | t => (1, t)

/-- Mantissa/exponent assembly for `parseFloat`:
`(intDigits).(fracDigits) × 10^exp` with the given sign. -/
def assembleFloat (sign : Int) (intDs fracDs : List Char) (exp : Int) : ℚ :=
  let mantissa : Int := sign * Int.ofNat (digitsToNat (intDs ++ fracDs))
  if 0 ≤ exp then mkRat (mantissa * Int.ofNat (10 ^ exp.toNat)) (10 ^ fracDs.length)
  else mkRat mantissa (10 ^ fracDs.length * 10 ^ (-exp).toNat)

/-- Exponent part of a decimal literal: `e`/`E`, optional sign, digits.
Consumed only when at least one exponent digit follows, matching the
longest-valid-prefix rule of `parseFloat` (`"1e"` parses as `1`). -/
def parseExponent (cs : List Char) : Int :=
  match cs with
  | 'e' :: t | 'E' :: t =>
    let (s, t') := parseSign t
    let ds := t'.takeWhile Char.isDigit
    if ds = [] then 0 else s * Int.ofNat (digitsToNat ds)
  | _ => 0

/-- Model of `parseFloat(string)`: skip leading whitespace, optional sign,
then either the literal `Infinity` or a decimal literal
`digits [. digits] [exponent]`; the longest valid prefix is used and
trailing garbage is ignored; no valid prefix yields `NaN`.
(The double-precision overflow of enormous finite literals to `Infinity`
is floating-point range behaviour and is not modelled.) -/
def jsParseFloatStr (s : String) : JsFloat :=
  let cs := s.data.dropWhile Char.isWhitespace
  let (sign, rest) := parseSign cs
  if "Infinity".data.isPrefixOf rest then
    if sign = 1 then .inf else .negInf
  else
    let intDs := rest.takeWhile Char.isDigit
    let afterInt := rest.drop intDs.length
    let fracDs :=
      match afterInt with
      | '.' :: t => t.takeWhile Char.isDigit
      | _ => []
    if intDs = [] ∧ fracDs = [] then .nan
    else
      let afterFrac :=
        match afterInt with
        | '.' :: t => t.drop fracDs.length
        | _ => afterInt
      .fin (assembleFloat sign intDs fracDs (parseExponent afterFrac))

/-- `parseFloat` applied to a possibly missing control value: a missing
element gives `parseFloat(undefined)`, i.e. `NaN`. -/
def jsParseFloat (v : Option String) : JsFloat :=
  match v with
  | none => .nan
  | some s => jsParseFloatStr s

/-- Model of `parseInt(s, 10) || 0`: skip leading whitespace, optional
sign, longest decimal-digit prefix; no digits parses to `NaN`, which the
`|| 0` fallback (and a parsed `0` itself) sends to `0`. -/
def parseIntOr0 (s : String) : Int :=
  let cs := s.data.dropWhile Char.isWhitespace
  let (sign, rest) := parseSign cs
  let ds := rest.takeWhile Char.isDigit
  if ds = [] then 0 else sign * Int.ofNat (digitsToNat ds)

/-! ## Date parsing (`Date.parse` on the ECMA Date Time String Format) -/

/-- Leap-year test of the proleptic Gregorian calendar (negative years
use the always non-negative `Int.emod`). -/
def isLeap (y : Int) : Bool := y.emod 4 = 0 ∧ (y.emod 100 ≠ 0 ∨ y.emod 400 = 0)

/-- Days in a month of the Gregorian calendar (month given 1-12). -/
def daysInMonth (y : Int) (m : Nat) : Nat :=
  if m = 2 then (if isLeap y then 29 else 28)
  else if m = 4 ∨ m = 6 ∨ m = 9 ∨ m = 11 then 30
  else 31

/-- Days since the Unix epoch of a civil date, by the standard
era-based civil-from-days algorithm; `Int.ediv` gives floor division for
the positive divisors, so negative (expanded-format) years work too. -/
def epochDays (y : Int) (m d : Nat) : Int :=
  let yAdj : Int := if m ≤ 2 then y - 1 else y
  let era : Int := Int.ediv yAdj 400
  let yoe : Int := yAdj - era * 400
  let doy : Int := Int.ofNat ((153 * ((m + 9) % 12) + 2) / 5 + d - 1)
  let doe : Int := yoe * 365 + Int.ediv yoe 4 - Int.ediv yoe 100 + doy
  era * 146097 + doe - 719468

/-- Exactly `n` decimal digits from the front of the list, with the
remaining characters. -/
def takeDigits (n : Nat) (cs : List Char) : Option (Nat × List Char) :=
  let ds := cs.take n
  if ds.length = n ∧ ds.all Char.isDigit then some (digitsToNat ds, cs.drop n) else none

/-- The date part `YYYY[-MM[-DD]]` of the Date Time String Format,
including the expanded six-digit signed years (`+YYYYYY`/`-YYYYYY`;
`-000000` is explicitly invalid).  Omitted month and day default to 1.
Returns the fields and the unconsumed characters (a possible time part). -/
def parseDateFields (cs : List Char) : Option (Int × Nat × Nat × List Char) :=
  let yearParsed : Option (Int × List Char) :=
    match cs with
    | '+' :: t =>
      match takeDigits 6 t with
      | some (y, r) => some (Int.ofNat y, r)
      | none => none
    | '-' :: t =>
      match takeDigits 6 t with
      | some (y, r) => if y = 0 then none else some (-(Int.ofNat y), r)
      | none => none
    | _ =>
      match takeDigits 4 cs with
      | some (y, r) => some (Int.ofNat y, r)
      | none => none
  match yearParsed with
  | none => none
  | some (y, r1) =>
    match r1 with
    | '-' :: t1 =>
      match takeDigits 2 t1 with
      | none => none
      | some (m, r2) =>
        match r2 with
        | '-' :: t2 =>
          match takeDigits 2 t2 with
          | none => none
          | some (d, r3) => some (y, m, d, r3)
        | _ => some (y, m, 1, r2)
    | _ => some (y, 1, 1, r1)

/-- The time-zone offset suffix: nothing, `Z`, or `±HH:mm`, in minutes.
A date-time without an offset is local time in JavaScript; the host's
time zone is environment state outside this program, and the model fixes
it to UTC, so the empty suffix reads as offset 0. -/
def parseOffset (cs : List Char) : Option Int :=
  match cs with
  | [] => some 0
  | ['Z'] => some 0
  | sgn :: t =>
    if sgn = '+' ∨ sgn = '-' then
      match takeDigits 2 t with
      | some (hh, ':' :: t2) =>
        match takeDigits 2 t2 with
        | some (mm, []) =>
          if hh ≤ 23 ∧ mm ≤ 59 then
            some ((if sgn = '-' then -1 else 1) * Int.ofNat (hh * 60 + mm))
          else none
        | _ => none
      | _ => none
    else none

/-- The optional time part `THH:mm[:ss[.sss]]` with its offset suffix:
the millisecond-of-day contribution minus the offset (an absent time
part contributes 0, i.e. midnight UTC).  `24` is a legal hour only for
exactly `24:00[:00[.000]]`; milliseconds are exactly three digits, as
the format mandates. -/
def parseTimeOfDay (cs : List Char) : Option Int :=
  match cs with
  | [] => some 0
  | 'T' :: t =>
    match takeDigits 2 t with
    | some (hh, ':' :: t2) =>
      match takeDigits 2 t2 with
      | some (mm, r2) =>
        let secParsed : Option (Nat × Nat × List Char) :=
          match r2 with
          | ':' :: t3 =>
            match takeDigits 2 t3 with
            | some (ss, '.' :: t4) =>
              match takeDigits 3 t4 with
              | some (ms, r4) => some (ss, ms, r4)
              | none => none
            | some (ss, r4) => some (ss, 0, r4)
            | none => none
          | _ => some (0, 0, r2)
        match secParsed with
        | none => none
        | some (ss, ms, rest) =>
          match parseOffset rest with
          | none => none
          | some off =>
            if (hh ≤ 23 ∨ (hh = 24 ∧ mm = 0 ∧ ss = 0 ∧ ms = 0)) ∧ mm ≤ 59 ∧ ss ≤ 59 then
              some (Int.ofNat (hh * 3600000 + mm * 60000 + ss * 1000 + ms) - off * 60000)
            else none
      | none => none
    | _ => none
  | _ => none

/-- Model of `Date.parse` on the Date Time String Format that ECMA-262
mandates (`YYYY[-MM[-DD]][THH:mm[:ss[.sss]][Z|±HH:mm]]`, expanded years
included): milliseconds since the epoch, `none` for `NaN`.  Date-only
forms are UTC; a date-time without offset is host-local time, modelled
as UTC (see `parseOffset`).  Out-of-range fields and time values beyond
±8.64e15 ms are invalid, as mandated.  Strings outside the mandated
format fall back to implementation-defined parsing in real engines and
are treated as unparseable here. -/
def dateTimeParseMs (s : String) : Option Int :=
  match parseDateFields s.data with
  | none => none
  | some (y, m, d, rest) =>
    if 1 ≤ m ∧ m ≤ 12 ∧ 1 ≤ d ∧ d ≤ daysInMonth y m then
      match parseTimeOfDay rest with
      | none => none
      | some tms =>
        let ms := 86400000 * epochDays y m d + tms
        if -8640000000000000 ≤ ms ∧ ms ≤ 8640000000000000 then some ms else none
    else none

/-- The scoreDate key used by the comparators:
`Date.parse(x.scoreDate || '1970-01-01') || 0` — an empty date falls back
to the epoch string and an unparseable one to `NaN`, both yielding `0`. -/
def dateOr0 (scoreDate : String) : Int :=
  match dateTimeParseMs (if scoreDate = "" then "1970-01-01" else scoreDate) with
  | some ms => ms
  | none => 0

/-- A non-`NaN` JavaScript number: `-Infinity`, a finite value, or
`+Infinity`.  This is the score type of a view item — the record mapper
provably never produces `NaN` (`mapped_score_tolerant`) but can produce
the infinities (`mapped_score_infinite`) — and also the type of the
score-filter bounds `getScoreBounds` manipulates. -/
inductive XRat : Type
  | negInf : XRat
  | fin : ℚ → XRat
  | posInf : XRat
deriving DecidableEq

/-- `≤` on the extended values (standard JavaScript comparison between
non-`NaN` numbers). -/
def XRat.le : XRat → XRat → Bool
  | .negInf, _ => true
  | _, .posInf => true
  | .fin a, .fin b => decide (a ≤ b)
  | _, _ => false

/-- `<` on the extended values. -/
def XRat.lt : XRat → XRat → Bool
  | .negInf, .negInf => false
  | .negInf, _ => true
  | .fin _, .posInf => true
  | .fin a, .fin b => decide (a < b)
  | _, _ => false

/-- `>` on the extended values: for these total values `a > b` is `¬(a ≤ b)`. -/
def XRat.gt (a b : XRat) : Bool := !(XRat.le a b)

/-- `Number.isFinite` on a non-`NaN` value. -/
def XRat.isFinite : XRat → Bool
  | .fin _ => true
  | _ => false

/-- JavaScript subtraction `x - y` of two non-`NaN` numbers: like-signed
infinities give `NaN`, a single infinity dominates, and finite values
subtract exactly. -/
def XRat.sub : XRat → XRat → JsFloat
  | .posInf, .posInf => .nan
  | .negInf, .negInf => .nan
  | .posInf, _ => .inf
  | .negInf, _ => .negInf
  | .fin _, .posInf => .negInf
  | .fin _, .negInf => .inf
  | .fin a, .fin b => .fin (a - b)

/-- How `SortCompare` (ES2023 23.1.3.30.2) reads a comparator's returned
number: negative sorts the first argument earlier, positive later, and a
`NaN` result is treated as `+0` — a tie. -/
def jsCmpOfNum : JsFloat → Ordering
  | .nan => .eq
  | .inf => .gt
  | .negInf => .lt
  | .fin q => if 0 < q then .gt else if q < 0 then .lt else .eq

/-! ## Item records -/

/-- A normalized pipeline item (spec §3).  `score` is the item's rating
as the mapper leaves it: a non-`NaN` JavaScript number, finite in the
common case but possibly `±Infinity` (see `mapped_score_infinite`); the
remaining fields are the strings produced by the record mapper.  The
filter/sort/render claims quantify over lists of these records. -/
structure Item : Type where
  title : String
  score : XRat
  year : String
  person : String
  scoreDate : String
  posterUrl : String
deriving DecidableEq

/-- The record mapper's raw output (`mapRow`): as `Item`, but the score
keeps the full `JsFloat` range of `parseFloat(row['Score'] || 0) || 0`,
including `NaN` — which the expression provably never produces
(`mapped_score_tolerant`), justifying the `NaN`-free score of `Item`. -/
structure MappedItem : Type where
  title : String
  score : JsFloat
  year : String
  person : String
  scoreDate : String
  posterUrl : String
deriving DecidableEq

/-! ## Sort Engine (`applySort`, script.js lines 342–383) -/

/-- The `latest` comparator (lines 344–359): year difference descending,
then scoreDate difference descending, then score difference descending,
then `localeCompare` on titles.  Each numeric step returns the sign of
the JavaScript subtraction.  The year and date keys are always finite,
but the score step computes `(b.score || 0) - (a.score || 0)` (the
`|| 0` is the identity on the `NaN`-free scores): two like-signed
infinite scores subtract to `NaN`, which passes the `!== 0` guard and is
returned — `SortCompare` then reads it as a tie, so the title comparison
is never reached for such a pair.  `(a.title || '')` is the identity on
the already string-valued titles. -/
def latestCmp (a b : Item) : Ordering :=
  let ya := parseIntOr0 a.year
  let yb := parseIntOr0 b.year
  if yb - ya ≠ 0 then (if 0 < yb - ya then .gt else .lt)
  else
    let da := dateOr0 a.scoreDate
    let db := dateOr0 b.scoreDate
    if db - da ≠ 0 then (if 0 < db - da then .gt else .lt)
    else
      let ds := XRat.sub b.score a.score
      if ds ≠ .fin 0 then jsCmpOfNum ds
      else cmpStr a.title b.title

/-- The `score` comparator (lines 363–373): score difference descending,
then year difference descending, then `localeCompare` on titles.  As in
`latestCmp`, the score step returns the sign of
`(b.score || 0) - (a.score || 0)`, and a `NaN` difference (two
like-signed infinite scores) is returned as a tie without reaching the
year and title tie-breaks. -/
def scoreCmp (a b : Item) : Ordering :=
  let ds := XRat.sub b.score a.score
  if ds ≠ .fin 0 then jsCmpOfNum ds
  else
    let ya := parseIntOr0 a.year
    let yb := parseIntOr0 b.year
    if yb - ya ≠ 0 then (if 0 < yb - ya then .gt else .lt)
    else cmpStr a.title b.title

/-- The `date` comparator (lines 377–381): scoreDate difference descending
only. -/
def dateCmp (a b : Item) : Ordering :=
  let da := dateOr0 a.scoreDate
  let db := dateOr0 b.scoreDate
  if 0 < db - da then .gt else if db - da < 0 then .lt else .eq

/-- `applySort(list, sortKey)` (lines 342–383): three independent `if`
blocks, each sorting the list in place with its comparator when the key
matches; an unmatched key leaves the list untouched. -/
def applySort (list : List Item) (sortKey : String) : List Item :=
  let l1 := if sortKey = "latest" then jsSortBy latestCmp list else list
  let l2 := if sortKey = "score" then jsSortBy scoreCmp l1 else l1
  if sortKey = "date" then jsSortBy dateCmp l2 else l2

/-! ## Filter Engine (script.js lines 211–230 and 400–409) -/

/-- `getScoreBounds(minEl, maxEl)` (lines 211–225): parse each control's
value; a non-finite parse (missing element, empty or non-numeric text)
falls back to `-Infinity` / `+Infinity`; if the minimum exceeds the
maximum the two are swapped. -/
def getScoreBounds (minStr maxStr : Option String) : XRat × XRat :=
  let minVal := jsParseFloat minStr
  let maxVal := jsParseFloat maxStr
  let minScore : XRat := if minVal.isFinite then .fin minVal.toRat else .negInf
  let maxScore : XRat := if maxVal.isFinite then .fin maxVal.toRat else .posInf
  if XRat.gt minScore maxScore then (maxScore, minScore) else (minScore, maxScore)

/-- The dynamically accessed search fields: `cfg.searchKeys` only ever
names string-valued fields of the item (the configs use
`['title', 'person']`). -/
inductive SearchField : Type
  | title : SearchField
  | person : SearchField
  | year : SearchField
  | scoreDate : SearchField
  | posterUrl : SearchField
deriving DecidableEq

/-- Dynamic field access `item[k]` for the string-valued fields. -/
def fieldGet (item : Item) : SearchField → String
  | .title => item.title
  | .person => item.person
  | .year => item.year
  | .scoreDate => item.scoreDate
  | .posterUrl => item.posterUrl

/-- `matchesSearch(item, term, keys)` (lines 227–230): an empty term
matches everything; otherwise some key's normalized field contains the
term as a substring. -/
def matchesSearch (item : Item) (term : String) (keys : List SearchField) : Bool :=
  if term = "" then true
  else keys.any (fun k => strIncludes (lowerStr (fieldGet item k)) term)

/-- The filter stage of `renderCategory` (lines 400–409): read the year
selection (`yearEl?.value || ''`), the score bounds and the normalized,
trimmed search term, and keep the items satisfying all three predicates.
`(item.score ?? 0)` is the identity on the always-present scores. -/
def renderFilter (data : List Item) (minStr maxStr yearStr searchStr : Option String)
    (searchKeys : List SearchField) : List Item :=
  let selectedYear := yearStr.getD ""
  let bounds := getScoreBounds minStr maxStr
  let searchTerm := jsTrim (jsNormalize searchStr)
  data.filter (fun item =>
    let yearMatch := if selectedYear ≠ "" then item.year == selectedYear else true
    let scoreMatch := XRat.le bounds.1 item.score && XRat.le item.score bounds.2
    let searchMatch := matchesSearch item searchTerm searchKeys
    yearMatch && scoreMatch && searchMatch)

/-! ## Record Mapper (script.js lines 52–59 and 264–267) -/

/-- A parsed CSV row: an association of column headers to cell text, as
produced by `Papa.parse(text, { header: true })` (the CSV text transport
itself is external to the repository). -/
def Row : Type := List (String × String)

/-- Column lookup `row['Header']`: the first matching cell, or
`undefined` (`none`) when the column is absent. -/
def rowGet (row : Row) (key : String) : Option String :=
  match row.find? (fun p => p.1 == key) with
  | some p => some p.2
  | none => none

/-- The score expression of the movies/games mappers:
`parseFloat(row['Score'] || 0) || 0`.  A missing or empty cell is the
falsy `0`, which `parseFloat` coerces to the string `"0"`; the outer
`|| 0` replaces a `NaN` parse by `0`. -/
def mapScore (v : Option String) : JsFloat :=
  let arg : String :=
    match v with
    | none => "0"
    | some s => if s = "" then "0" else s
  jsOrZero (jsParseFloatStr arg)

/-- `CATEGORY.movies.mapRow` (lines 52–59). -/
def mapRowMovies (row : Row) : MappedItem where
  title := jsTrimOpt (rowGet row "Title")
  score := mapScore (rowGet row "Score")
  year := jsTrim ((rowGet row "Year").getD "")
  person := jsTrimOpt (rowGet row "Director")
  scoreDate := jsTrimOpt (rowGet row "Score Date")
  posterUrl := jsTrimOpt (rowGet row "PosterURL")

/-- `CATEGORY.games.mapRow` (lines 75–82): as for movies but the person
line comes from the `Developers` column. -/
def mapRowGames (row : Row) : MappedItem where
  title := jsTrimOpt (rowGet row "Title")
  score := mapScore (rowGet row "Score")
  year := jsTrim ((rowGet row "Year").getD "")
  person := jsTrimOpt (rowGet row "Developers")
  scoreDate := jsTrimOpt (rowGet row "Score Date")
  posterUrl := jsTrimOpt (rowGet row "PosterURL")

/-- The row stage of `parseCsvWithMap` (line 266):
`parsed.map(mapRow).filter(x => x.title)` — map every parsed row and drop
the items whose title is the (falsy) empty string. -/
def mapRows (mapRow : Row → MappedItem) (rows : List Row) : List MappedItem :=
  (rows.map mapRow).filter (fun x => x.title != "")

/-! ## Renderer (script.js lines 413–458) -/

/-- The visible content of one rendered card: the poster source, the
badge score (`item.score || 0`), the title line with its optional year
suffix, the optional person detail line, and the rated pill text. -/
structure Card : Type where
  poster : String
  badgeScore : XRat
  titleLine : String
  personLine : Option String
  ratedLine : String
deriving DecidableEq

/-- The card built for one item by the `filtered.forEach` body
(lines 417–457). -/
def renderCard (item : Item) : Card where
  poster := item.posterUrl
  badgeScore := item.score
  titleLine := if item.year ≠ "" then item.title ++ " (" ++ item.year ++ ")" else item.title
  personLine := if item.person ≠ "" then some item.person else none
  ratedLine := if item.scoreDate ≠ "" then "Rated: " ++ item.scoreDate else "Rated: —"

/-- The container content produced for a filtered list: one card per item
and nothing else (the loop body appends exactly one card per item and no
other branch adds content). -/
def renderCards (filtered : List Item) : List Card :=
  filtered.map renderCard

/-- The mount-point update of `renderCategory` (lines 415–458):
`container.innerHTML = ''` discards whatever was rendered before, then the
cards of the current list are appended. -/
def renderInto (_prev : List Card) (filtered : List Item) : List Card :=
  renderCards filtered

/-! ## Navigation and fetch (script.js lines 235–259, 269–317) -/

/-- The configured category keys (`CATEGORY`, lines 38–116). -/
inductive CatKey : Type
  | movies : CatKey
  | games : CatKey
  | mice : CatKey
  | mousepads : CatKey
deriving DecidableEq

/-- The per-category configuration relevant to data loading: the source
gids and the row mapper (absent for the not-yet-configured categories). -/
structure Config : Type where
  label : String
  gids : List String
  mapRow : Option (Row → MappedItem)

/-- The category registry (only the fetch-relevant parts of `CATEGORY`). -/
def categoryCfg : CatKey → Config
  | .movies => ⟨"Movies", ["1920189918"], some mapRowMovies⟩
  | .games => ⟨"Games", ["1303529120", "1556084448"], some mapRowGames⟩
  | .mice => ⟨"Mice", [], none⟩
  | .mousepads => ⟨"Mousepads", [], none⟩

/-- Outcome of the awaited transport step of `fetchCategory`: either one
parsed row table per source gid, or a rejected promise (network error /
non-text response). -/
inductive FetchResult : Type
  | ok : List (List Row) → FetchResult
  | err : FetchResult

/-- The mount-point content `fetchCategory` can leave behind. -/
inductive MountContent : Type
  | setupNote : MountContent
  | couldNotLoad : MountContent
  | rendered : MountContent
deriving DecidableEq

/-- The observable effect of one `fetchCategory` run on its category:
the new cache slot value, the mount content, and whether an error was
logged to the console. -/
structure FetchEffect : Type where
  data : Option (List MappedItem)
  mount : MountContent
  logged : Bool

/-- `fetchCategory(key)` (lines 269–317) as a state transformer.  An
unconfigured category writes an empty list and a setup note.  A successful
fetch maps and merges all row tables and stores the result.  A transport
failure is caught: the error is logged, the "could not load" placeholder
is shown — and the cache slot keeps its previous value, because the
`catch` branch never assigns `st.data`. -/
def fetchCategoryStep (cfg : Config) (cur : Option (List MappedItem))
    (res : FetchResult) : FetchEffect :=
  match cfg.mapRow with
  | none => ⟨some [], .setupNote, false⟩
  | some mr =>
    if cfg.gids = [] then ⟨some [], .setupNote, false⟩
    else
      match res with
      | .ok tables => ⟨some (tables.flatMap (fun rows => mapRows mr rows)), .rendered, false⟩
      | .err => ⟨cur, .couldNotLoad, true⟩

/-- The section ids of the page (`sections`, line 131). -/
def sectionIds : List String := ["home", "movies", "games", "mice", "mousepads"]

/-- The category key behind a section id (`id in CATEGORY`, line 247). -/
def catOfId : String → Option CatKey
  | "movies" => some .movies
  | "games" => some .games
  | "mice" => some .mice
  | "mousepads" => some .mousepads
  | _ => none

/-- The section id of a category key. -/
def idOfCat : CatKey → String
  | .movies => "movies"
  | .games => "games"
  | .mice => "mice"
  | .mousepads => "mousepads"

/-- The per-category cache slots (`state[key].data`, lines 121–126);
`none` is the initial "not yet fetched" null. -/
def AppData : Type := CatKey → Option (List MappedItem)

/-- The startup state: every slot null. -/
def initData : AppData := fun _ => none

/-- Write one cache slot. -/
def setData (st : AppData) (k : CatKey) (v : Option (List MappedItem)) : AppData :=
  fun k2 => if k2 = k then v else st k2

/-- `classList.toggle('hidden', sec !== id)` (line 238): after
`showSection(id)`, section `sec` carries the `hidden` class exactly when
it is not the shown id. -/
def sectionHidden (id sec : String) : Bool := sec != id

/-- The fetch guard of `showSection` (lines 247–249): a fetch starts
exactly when the id names a category whose slot is still null.  The
returned flag records whether `fetchCategory` was triggered. -/
def showSectionStep (id : String) (st : AppData) (res : FetchResult) : AppData × Bool :=
  match catOfId id with
  | some k =>
    if (st k).isNone then
      (setData st k (fetchCategoryStep (categoryCfg k) (st k) res).data, true)
    else (st, false)
  | none => (st, false)

/-- Total number of fetches triggered by a sequence of section entries,
each paired with the transport outcome its fetch (if any) would see. -/
def countFetches (st : AppData) : List (String × FetchResult) → Nat
  | [] => 0
  | (id, res) :: evs =>
    let step := showSectionStep id st res
    (if step.2 then 1 else 0) + countFetches step.1 evs

/-- `window.location.hash.replace('#', '')`: drop the first `#`. -/
def stripHash : List Char → List Char
  | [] => []
  | c :: t => if c = '#' then t else c :: stripHash t

/-- The section `handleHashChange` routes to (lines 252–259): the named
section when the stripped fragment is a known, non-empty id, otherwise
home. -/
def hashTarget (hash : String) : String :=
  let h : String := ⟨stripHash hash.data⟩
  if sectionIds.contains h ∧ h ≠ "" then h else "home"

/-! ## Spec-side orders and laws -/

/-- Comparator laws making a JavaScript comparator consistent: antisymmetric
orientation, transitivity of strict comparison, and substitutivity of ties. -/
structure CmpLaws {α : Type} (c : α → α → Ordering) : Prop where
  symm : ∀ a b, (c a b).swap = c b a
  ltTrans : ∀ {a b d}, c a b = .lt → c b d = .lt → c a d = .lt
  eqLeft : ∀ {a b d}, c a b = .eq → c a d = c b d

/-- The order the spec prescribes for the `latest` mode, written as its
comparator chain: year descending (numeric, parse failures treated as 0),
then scoreDate descending (parse failures treated as epoch), then score
descending, then title ascending under the locale comparison. -/
def LatestSpecLe (a b : Item) : Prop :=
  parseIntOr0 b.year < parseIntOr0 a.year
  ∨ (parseIntOr0 b.year = parseIntOr0 a.year ∧
     (dateOr0 b.scoreDate < dateOr0 a.scoreDate
      ∨ (dateOr0 b.scoreDate = dateOr0 a.scoreDate ∧
         (XRat.lt b.score a.score = true
          ∨ (b.score = a.score ∧ cmpStr a.title b.title ≠ .gt)))))

/-- The order the spec prescribes for the `score` mode: score descending,
then year descending, then title ascending. -/
def ScoreSpecLe (a b : Item) : Prop :=
  XRat.lt b.score a.score = true
  ∨ (b.score = a.score ∧
     (parseIntOr0 b.year < parseIntOr0 a.year
      ∨ (parseIntOr0 b.year = parseIntOr0 a.year ∧ cmpStr a.title b.title ≠ .gt)))

/-- `needle` occurs as a contiguous substring of `hay`. -/
def SubstringOf (needle hay : String) : Prop := needle.data <:+: hay.data

/-! ## Concrete instances used by the claims -/

/-- Item A of the spec's `latest` tie-break scenario:
year 2020, scoreDate 2021-01-01, score 8. -/
def latestA : Item := ⟨"A", .fin 8, "2020", "", "2021-01-01", ""⟩

/-- Item B of the spec's `latest` tie-break scenario: as A but score 9. -/
def latestB : Item := ⟨"B", .fin 9, "2020", "", "2021-01-01", ""⟩

/-- Two items tied on every `latest` key (they differ only in the poster
URL, which no comparator reads). -/
def tieX : Item := ⟨"T", .fin 5, "2000", "p", "2020-05-05", "u1"⟩

/-- See `tieX`. -/
def tieY : Item := ⟨"T", .fin 5, "2000", "p", "2020-05-05", "u2"⟩

/-- ("Beta", 2019, 7.0) of the spec's `score` tie-break scenario. -/
def scoreBeta : Item := ⟨"Beta", .fin 7, "2019", "", "", ""⟩

/-- ("Alpha", 2018, 7.0) of the spec's `score` tie-break scenario. -/
def scoreAlpha : Item := ⟨"Alpha", .fin 7, "2018", "", "", ""⟩

/-- The row `{Title:"X",Score:"9.5",Year:"2020"}` of the end-to-end
mapper scenario. -/
def rowX : Row := [("Title", "X"), ("Score", "9.5"), ("Year", "2020")]

/-- The row `{Title:"",Score:"3"}` of the end-to-end mapper scenario. -/
def rowBlank : Row := [("Title", ""), ("Score", "3")]

/-- A row whose Score cell parses to the non-finite value `Infinity`. -/
def rowInf : Row := [("Title", "T"), ("Score", "Infinity")]

/-- Two items with score `Infinity` that tie on year and scoreDate but
whose titles are in descending order. -/
def infB : Item := ⟨"B", .posInf, "2020", "", "2021-01-01", ""⟩

/-- See `infB`. -/
def infA : Item := ⟨"A", .posInf, "2020", "", "2021-01-01", ""⟩

/-- Two items with score `Infinity` and distinct years, input in
ascending year order. -/
def infAlpha : Item := ⟨"Alpha", .posInf, "2018", "", "", ""⟩

/-- See `infAlpha`. -/
def infBeta : Item := ⟨"Beta", .posInf, "2019", "", "", ""⟩

/-- The score comparison step shared by `latestCmp` and `scoreCmp`:
the sign of the JavaScript difference `y - x`, falling through to `rest`
only when the difference is exactly 0 (a `NaN` difference passes the
`!== 0` guard and is returned as a tie). -/
def scoreStep (x y : XRat) (rest : Ordering) : Ordering :=
  let ds := XRat.sub y x
  if ds ≠ .fin 0 then jsCmpOfNum ds else rest

/-- The comparator built from the score step with `rest` as the
fall-through chain. -/
def scoreLex (rest : Item → Item → Ordering) (a b : Item) : Ordering :=
  scoreStep a.score b.score (rest a b)

/-! ## Lemmas: three-way comparisons -/

theorem cmpLin_lt_iff {K : Type} [LinearOrder K] {x y : K} :
    cmpLin x y = .lt ↔ x < y := by
  unfold cmpLin
  split_ifs with h1 h2 <;> simp [h1]

theorem cmpLin_eq_iff {K : Type} [LinearOrder K] {x y : K} :
    cmpLin x y = .eq ↔ x = y := by
  unfold cmpLin
  split_ifs with h1 h2
  · simp [ne_of_lt h1]
  · simp [h2]
  · simp [h2]

theorem cmpLin_gt_iff {K : Type} [LinearOrder K] {x y : K} :
    cmpLin x y = .gt ↔ y < x := by
  unfold cmpLin
  split_ifs with h1 h2
  · simp [lt_asymm h1]
  · simp [h2, lt_irrefl]
  · simp [lt_of_le_of_ne (not_lt.mp h1) (Ne.symm h2)]

theorem cmpLin_swap {K : Type} [LinearOrder K] (x y : K) :
    (cmpLin x y).swap = cmpLin y x := by
  rcases lt_trichotomy x y with h | h | h
  · rw [cmpLin_lt_iff.mpr h, cmpLin_gt_iff.mpr h]
    rfl
  · rw [cmpLin_eq_iff.mpr h, cmpLin_eq_iff.mpr h.symm]
    rfl
  · rw [cmpLin_gt_iff.mpr h, cmpLin_lt_iff.mpr h]
    rfl

theorem cmpLin_isLE_iff {K : Type} [LinearOrder K] {x y : K} :
    (cmpLin x y).isLE = true ↔ x ≤ y := by
  rcases lt_trichotomy x y with h | h | h
  · rw [cmpLin_lt_iff.mpr h]
    simp [show Ordering.lt.isLE = true from rfl, le_of_lt h]
  · rw [cmpLin_eq_iff.mpr h]
    simp [show Ordering.eq.isLE = true from rfl, le_of_eq h]
  · rw [cmpLin_gt_iff.mpr h]
    simp [show Ordering.gt.isLE = false from rfl, not_le.mpr h]

theorem byKey_laws {α K : Type} [LinearOrder K] (f : α → K) : CmpLaws (byKey f) where
  symm a b := by unfold byKey; exact cmpLin_swap (f a) (f b)
  ltTrans h₁ h₂ := by
    rw [byKey, cmpLin_lt_iff] at h₁ h₂ ⊢
    exact lt_trans h₁ h₂
  eqLeft h := by
    rw [byKey, cmpLin_eq_iff] at h
    unfold byKey
    rw [h]

theorem byKeyDesc_laws {α K : Type} [LinearOrder K] (f : α → K) : CmpLaws (byKeyDesc f) where
  symm a b := by unfold byKeyDesc; exact cmpLin_swap (f b) (f a)
  ltTrans h₁ h₂ := by
    rw [byKeyDesc, cmpLin_lt_iff] at h₁ h₂ ⊢
    exact lt_trans h₂ h₁
  eqLeft h := by
    rw [byKeyDesc, cmpLin_eq_iff] at h
    unfold byKeyDesc
    rw [h]

theorem CmpLaws.isEq_refl {α : Type} {c : α → α → Ordering} (hc : CmpLaws c) (a : α) :
    c a a = .eq := by
  have h := hc.symm a a
  cases he : c a a
  · rw [he] at h
    exact absurd h (by decide)
  · rfl
  · rw [he] at h
    exact absurd h (by decide)

theorem CmpLaws.gtSwap {α : Type} {c : α → α → Ordering} (hc : CmpLaws c) {a b : α}
    (h : c a b = .gt) : c b a = .lt := by
  have hs := hc.symm a b
  rw [h] at hs
  exact hs.symm

theorem CmpLaws.eqRight {α : Type} {c : α → α → Ordering} (hc : CmpLaws c) {a b d : α}
    (h : c a b = .eq) : c d a = c d b := by
  calc c d a = (c a d).swap := (hc.symm a d).symm
    _ = (c b d).swap := by rw [hc.eqLeft h]
    _ = c d b := hc.symm b d

theorem CmpLaws.isLE_trans {α : Type} {c : α → α → Ordering} (hc : CmpLaws c) {a b d : α}
    (h₁ : (c a b).isLE = true) (h₂ : (c b d).isLE = true) : (c a d).isLE = true := by
  cases e₁ : c a b
  · cases e₂ : c b d
    · rw [hc.ltTrans e₁ e₂]
      rfl
    · rw [← hc.eqRight e₂, e₁]
      rfl
    · rw [e₂] at h₂
      exact absurd h₂ (by decide)
  · rw [hc.eqLeft e₁]
    exact h₂
  · rw [e₁] at h₁
    exact absurd h₁ (by decide)

theorem CmpLaws.isLE_total {α : Type} {c : α → α → Ordering} (hc : CmpLaws c) (a b : α) :
    ((c a b).isLE || (c b a).isLE) = true := by
  cases e : c a b
  · rfl
  · rfl
  · rw [hc.gtSwap e]
    rfl

theorem CmpLaws.lex {α : Type} {c₁ c₂ : α → α → Ordering} (h₁ : CmpLaws c₁)
    (h₂ : CmpLaws c₂) : CmpLaws (lexCmp c₁ c₂) where
  symm a b := by
    unfold lexCmp
    rw [Ordering.swap_then, h₁.symm, h₂.symm]
  ltTrans := by
    intro a b d hab hbd
    unfold lexCmp at hab hbd ⊢
    rw [Ordering.then_eq_lt] at hab hbd ⊢
    rcases hab with hab | ⟨hab, hab2⟩
    · rcases hbd with hbd | ⟨hbd, hbd2⟩
      · exact Or.inl (h₁.ltTrans hab hbd)
      · exact Or.inl (by rw [← h₁.eqRight hbd]; exact hab)
    · rcases hbd with hbd | ⟨hbd, hbd2⟩
      · exact Or.inl (by rw [h₁.eqLeft hab]; exact hbd)
      · exact Or.inr ⟨by rw [h₁.eqLeft hab]; exact hbd, h₂.ltTrans hab2 hbd2⟩
  eqLeft := by
    intro a b d h
    unfold lexCmp at h ⊢
    rw [Ordering.then_eq_eq] at h
    rw [h₁.eqLeft h.1, h₂.eqLeft h.2]

theorem CmpLaws.congr {α : Type} {c c2 : α → α → Ordering} (hc : CmpLaws c)
    (h : ∀ a b, c2 a b = c a b) : CmpLaws c2 where
  symm a b := by rw [h, h, hc.symm]
  ltTrans hab hbd := by
    rw [h] at hab hbd ⊢
    exact hc.ltTrans hab hbd
  eqLeft hab := by
    rw [h] at hab
    rw [h, h]
    exact hc.eqLeft hab

/-! ## Lemmas: string comparison -/

theorem cmpChar_eq_iff {c d : Char} : cmpChar c d = .eq ↔ c = d := by
  unfold cmpChar
  exact cmpLin_eq_iff

theorem cmpChars_swap (s t : List Char) : (cmpChars s t).swap = cmpChars t s := by
  induction s generalizing t with
  | nil => cases t <;> rfl
  | cons c cs ih =>
    cases t with
    | nil => rfl
    | cons d ds =>
      show ((cmpChar c d).then (cmpChars cs ds)).swap = (cmpChar d c).then (cmpChars ds cs)
      rw [Ordering.swap_then, ih, cmpChar, cmpChar, cmpLin_swap]

theorem cmpChars_eq_iff {s t : List Char} : cmpChars s t = .eq ↔ s = t := by
  induction s generalizing t with
  | nil => cases t <;> simp [cmpChars]
  | cons c cs ih =>
    cases t with
    | nil => simp [cmpChars]
    | cons d ds =>
      show (cmpChar c d).then (cmpChars cs ds) = .eq ↔ _
      rw [Ordering.then_eq_eq, cmpChar_eq_iff, ih]
      simp

theorem cmpChars_ltTrans {s t u : List Char} (h₁ : cmpChars s t = .lt)
    (h₂ : cmpChars t u = .lt) : cmpChars s u = .lt := by
  induction s generalizing t u with
  | nil =>
    cases t with
    | nil => exact absurd h₁ (by simp [cmpChars])
    | cons d ds =>
      cases u with
      | nil => exact absurd h₂ (by simp [cmpChars])
      | cons e es => rfl
  | cons c cs ih =>
    cases t with
    | nil => exact absurd h₁ (by simp [cmpChars])
    | cons d ds =>
      cases u with
      | nil => exact absurd h₂ (by simp [cmpChars])
      | cons e es =>
        rw [show cmpChars (c :: cs) (d :: ds) = (cmpChar c d).then (cmpChars cs ds) from rfl,
          Ordering.then_eq_lt] at h₁
        rw [show cmpChars (d :: ds) (e :: es) = (cmpChar d e).then (cmpChars ds es) from rfl,
          Ordering.then_eq_lt] at h₂
        rw [show cmpChars (c :: cs) (e :: es) = (cmpChar c e).then (cmpChars cs es) from rfl,
          Ordering.then_eq_lt]
        rcases h₁ with h₁ | ⟨h₁, h₁2⟩
        · rcases h₂ with h₂ | ⟨h₂, h₂2⟩
          · exact Or.inl (by rw [cmpChar, cmpLin_lt_iff] at h₁ h₂ ⊢; exact lt_trans h₁ h₂)
          · exact Or.inl (by rw [cmpChar_eq_iff] at h₂; rw [← h₂]; exact h₁)
        · rcases h₂ with h₂ | ⟨h₂, h₂2⟩
          · exact Or.inl (by rw [cmpChar_eq_iff] at h₁; rw [h₁]; exact h₂)
          · refine Or.inr ⟨?_, ih h₁2 h₂2⟩
            rw [cmpChar_eq_iff] at h₁ h₂ ⊢
            rw [h₁, h₂]

theorem cmpStr_laws {α : Type} (f : α → String) :
    CmpLaws (fun a b => cmpStr (f a) (f b)) where
  symm a b := by unfold cmpStr; exact cmpChars_swap _ _
  ltTrans h₁ h₂ := by
    unfold cmpStr at h₁ h₂ ⊢
    exact cmpChars_ltTrans h₁ h₂
  eqLeft h := by
    unfold cmpStr at h ⊢
    rw [cmpChars_eq_iff] at h
    rw [h]

/-! ## Lemmas: stable insertion sort -/

theorem insertLe_perm {α : Type} (le : α → α → Bool) (x : α) (l : List α) :
    (insertLe le x l).Perm (x :: l) := by
  induction l with
  | nil => exact List.Perm.refl _
  | cons y ys ih =>
    unfold insertLe
    split
    · exact List.Perm.refl _
    · exact (List.Perm.cons y ih).trans (List.Perm.swap x y ys)

theorem sortLe_perm {α : Type} (le : α → α → Bool) (l : List α) :
    (sortLe le l).Perm l := by
  induction l with
  | nil => exact List.Perm.refl _
  | cons x xs ih =>
    exact (insertLe_perm le x (sortLe le xs)).trans (List.Perm.cons x ih)

theorem mem_insertLe {α : Type} {le : α → α → Bool} {x y : α} {l : List α} :
    y ∈ insertLe le x l ↔ y = x ∨ y ∈ l := by
  rw [(insertLe_perm le x l).mem_iff, List.mem_cons]

theorem insertLe_pairwise {α : Type} {le : α → α → Bool}
    (total : ∀ a b, (le a b || le b a) = true)
    (trans : ∀ a b d, le a b = true → le b d = true → le a d = true)
    {x : α} {l : List α} (h : l.Pairwise (fun a b => le a b = true)) :
    (insertLe le x l).Pairwise (fun a b => le a b = true) := by
  induction l with
  | nil => simp [insertLe]
  | cons y ys ih =>
    unfold insertLe
    split
    · rename_i hxy
      refine List.Pairwise.cons ?_ h
      intro z hz
      rcases List.mem_cons.mp hz with hz | hz
      · rw [hz]
        exact hxy
      · exact trans x y z hxy ((List.pairwise_cons.mp h).1 z hz)
    · rename_i hxy
      have hyx : le y x = true := by
        have := total x y
        rw [Bool.eq_false_iff.mpr hxy] at this
        simpa using this
      rcases List.pairwise_cons.mp h with ⟨hy, hys⟩
      refine List.Pairwise.cons ?_ (ih hys)
      intro z hz
      rcases mem_insertLe.mp hz with hz | hz
      · rw [hz]
        exact hyx
      · exact hy z hz

theorem sortLe_pairwise {α : Type} {le : α → α → Bool}
    (total : ∀ a b, (le a b || le b a) = true)
    (trans : ∀ a b d, le a b = true → le b d = true → le a d = true)
    (l : List α) : (sortLe le l).Pairwise (fun a b => le a b = true) := by
  induction l with
  | nil => exact List.Pairwise.nil
  | cons x xs ih => exact insertLe_pairwise total trans ih

theorem sublist_insertLe {α : Type} {le : α → α → Bool} {x : α} {s t : List α}
    (h : s.Sublist t) : s.Sublist (insertLe le x t) := by
  induction t generalizing s with
  | nil =>
    cases h
    exact List.nil_sublist _
  | cons y ys ih =>
    unfold insertLe
    split
    · exact h.trans (List.sublist_cons_self x (y :: ys))
    · cases h with
      | cons _ h2 => exact (ih h2).trans (List.sublist_cons_self y _)
      | cons₂ _ h2 => exact List.Sublist.cons₂ y (ih h2)

theorem insertLe_decomp {α : Type} (le : α → α → Bool) (x : α) (t : List α) :
    ∃ u v, t = u ++ v ∧ insertLe le x t = u ++ x :: v ∧ ∀ y ∈ u, le x y = false := by
  induction t with
  | nil => exact ⟨[], [], rfl, rfl, by intro y hy; cases hy⟩
  | cons y ys ih =>
    by_cases hxy : le x y = true
    · exact ⟨[], y :: ys, rfl, by simp [insertLe, hxy], by intro z hz; cases hz⟩
    · obtain ⟨u, v, h1, h2, h3⟩ := ih
      refine ⟨y :: u, v, by rw [h1]; rfl, ?_, ?_⟩
      · show insertLe le x (y :: ys) = y :: (u ++ x :: v)
        unfold insertLe
        rw [if_neg hxy, h2]
      · intro z hz
        rcases List.mem_cons.mp hz with hz | hz
        · rw [hz]
          exact Bool.eq_false_iff.mpr hxy
        · exact h3 z hz

theorem sortLe_pair_stable {α : Type} {le : α → α → Bool} {a b : α} {l : List α}
    (hab : le a b = true) (h : [a, b].Sublist l) : [a, b].Sublist (sortLe le l) := by
  induction l with
  | nil => cases h
  | cons x xs ih =>
    cases h with
    | cons _ h2 => exact sublist_insertLe (ih h2)
    | cons₂ _ h2 =>
      show [a, b].Sublist (insertLe le a (sortLe le xs))
      have hb : b ∈ sortLe le xs := by
        rw [(sortLe_perm le xs).mem_iff]
        exact List.singleton_sublist.mp h2
      obtain ⟨u, v, h1, hins, hu⟩ := insertLe_decomp le a (sortLe le xs)
      have hbv : b ∈ v := by
        rcases List.mem_append.mp (h1 ▸ hb) with hbu | hbv
        · exact absurd hab (by rw [hu b hbu]; simp)
        · exact hbv
      rw [hins]
      exact List.sublist_append_of_sublist_right
        (List.Sublist.cons₂ a (List.singleton_sublist.mpr hbv))

/-! ## Lemmas: the comparator chains -/

theorem subCmp_eq {K : Type} [LinearOrderedAddCommGroup K] (x y : K) (rest : Ordering)
    {d1 : Decidable (y - x ≠ 0)} {d2 : Decidable (0 < y - x)} :
    (if y - x ≠ 0 then (if 0 < y - x then Ordering.gt else .lt) else rest)
      = (cmpLin y x).then rest := by
  rcases lt_trichotomy x y with h | h | h
  · rw [if_pos (sub_ne_zero.mpr (ne_of_gt h)), if_pos (sub_pos.mpr h),
      cmpLin_gt_iff.mpr h]
    rfl
  · rw [if_neg (by rw [h]; simp), cmpLin_eq_iff.mpr h.symm]
    rfl
  · rw [if_pos (sub_ne_zero.mpr (ne_of_lt h)), if_neg (by simpa using le_of_lt (sub_neg.mpr h)),
      cmpLin_lt_iff.mpr h]
    rfl

theorem scoreStep_pp (r : Ordering) : scoreStep .posInf .posInf r = .eq := rfl

theorem scoreStep_nn (r : Ordering) : scoreStep .negInf .negInf r = .eq := rfl

theorem scoreStep_pn (r : Ordering) : scoreStep .posInf .negInf r = .lt := rfl

theorem scoreStep_np (r : Ordering) : scoreStep .negInf .posInf r = .gt := rfl

theorem scoreStep_pf (q : ℚ) (r : Ordering) : scoreStep .posInf (.fin q) r = .lt := rfl

theorem scoreStep_fp (p : ℚ) (r : Ordering) : scoreStep (.fin p) .posInf r = .gt := rfl

theorem scoreStep_nf (q : ℚ) (r : Ordering) : scoreStep .negInf (.fin q) r = .gt := rfl

theorem scoreStep_fn (p : ℚ) (r : Ordering) : scoreStep (.fin p) .negInf r = .lt := rfl

theorem scoreStep_fin_fin (p q : ℚ) (r : Ordering) :
    scoreStep (.fin p) (.fin q) r = (cmpLin q p).then r := by
  show (if (XRat.sub (.fin q) (.fin p) ≠ .fin 0) then jsCmpOfNum (XRat.sub (.fin q) (.fin p))
      else r) = _
  rw [show XRat.sub (XRat.fin q) (XRat.fin p) = .fin (q - p) from rfl]
  rcases lt_trichotomy p q with h | h | h
  · rw [if_pos (by simp [sub_ne_zero.mpr (ne_of_gt h)]), cmpLin_gt_iff.mpr h]
    show (if 0 < q - p then Ordering.gt else _) = _
    rw [if_pos (sub_pos.mpr h)]
    rfl
  · rw [show q - p = 0 from sub_eq_zero_of_eq h.symm, if_neg (by simp),
      cmpLin_eq_iff.mpr h.symm]
    rfl
  · rw [if_pos (by simp [sub_ne_zero.mpr (ne_of_lt h)]), cmpLin_lt_iff.mpr h]
    show (if 0 < q - p then Ordering.gt else if q - p < 0 then .lt else .eq) = _
    rw [if_neg (by simpa using le_of_lt (sub_neg.mpr h)), if_pos (sub_neg.mpr h)]
    rfl

theorem scoreLex_laws {rest : Item → Item → Ordering} (hr : CmpLaws rest) :
    CmpLaws (scoreLex rest) where
  symm a b := by
    unfold scoreLex
    cases ha : a.score <;> cases hb : b.score <;> try rfl
    rw [scoreStep_fin_fin, scoreStep_fin_fin, Ordering.swap_then, cmpLin_swap, hr.symm]
  ltTrans := by
    intro a b d h1 h2
    unfold scoreLex at h1 h2 ⊢
    rcases ha : a.score with _ | p | _ <;> rcases hb : b.score with _ | q | _ <;>
      rcases hd : d.score with _ | r2 | _ <;>
      rw [ha, hb] at h1 <;> rw [hb, hd] at h2
    all_goals try simp only [scoreStep_pp, scoreStep_nn, scoreStep_pn, scoreStep_np,
      scoreStep_pf, scoreStep_fp, scoreStep_nf, scoreStep_fn] at h1 h2 ⊢
    all_goals first
      | rfl
      | exact absurd h1 (by decide)
      | exact absurd h2 (by decide)
      | skip
    rw [scoreStep_fin_fin] at h1 h2 ⊢
    rw [Ordering.then_eq_lt] at h1 h2 ⊢
    rcases h1 with h1 | ⟨h1e, h1r⟩ <;> rcases h2 with h2 | ⟨h2e, h2r⟩
    · exact Or.inl (by rw [cmpLin_lt_iff] at h1 h2 ⊢; exact lt_trans h2 h1)
    · rw [cmpLin_eq_iff] at h2e
      exact Or.inl (by rw [h2e]; exact h1)
    · rw [cmpLin_eq_iff] at h1e
      exact Or.inl (by rw [← h1e]; exact h2)
    · rw [cmpLin_eq_iff] at h1e h2e
      exact Or.inr ⟨by rw [cmpLin_eq_iff, h2e, h1e], hr.ltTrans h1r h2r⟩
  eqLeft := by
    intro a b d h
    unfold scoreLex at h ⊢
    rcases ha : a.score with _ | p | _ <;> rcases hb : b.score with _ | q | _ <;>
      rw [ha, hb] at h <;>
      try simp only [scoreStep_pp, scoreStep_nn, scoreStep_pn, scoreStep_np,
        scoreStep_pf, scoreStep_fp, scoreStep_nf, scoreStep_fn] at h
    all_goals try exact absurd h (by decide)
    all_goals rcases hd : d.score with _ | r2 | _
    all_goals try rfl
    rw [scoreStep_fin_fin] at h
    rw [scoreStep_fin_fin, scoreStep_fin_fin]
    rw [Ordering.then_eq_eq] at h
    obtain ⟨he, hrest⟩ := h
    rw [cmpLin_eq_iff] at he
    rw [he, hr.eqLeft hrest]

theorem latestCmp_eq (a b : Item) :
    latestCmp a b =
      lexCmp (byKeyDesc fun x : Item => parseIntOr0 x.year)
        (lexCmp (byKeyDesc fun x : Item => dateOr0 x.scoreDate)
          (scoreLex (fun x y : Item => cmpStr x.title y.title))) a b := by
  unfold latestCmp lexCmp byKeyDesc scoreLex scoreStep
  rw [subCmp_eq, subCmp_eq]

theorem scoreCmp_eq (a b : Item) :
    scoreCmp a b =
      scoreLex (lexCmp (byKeyDesc fun x : Item => parseIntOr0 x.year)
        (fun x y : Item => cmpStr x.title y.title)) a b := by
  unfold scoreCmp scoreLex scoreStep lexCmp byKeyDesc
  rw [subCmp_eq]

theorem latestCmp_laws : CmpLaws latestCmp :=
  ((byKeyDesc_laws (fun x : Item => parseIntOr0 x.year)).lex
    ((byKeyDesc_laws (fun x : Item => dateOr0 x.scoreDate)).lex
      (scoreLex_laws (cmpStr_laws Item.title)))).congr latestCmp_eq

theorem scoreCmp_laws : CmpLaws scoreCmp :=
  (scoreLex_laws ((byKeyDesc_laws (fun x : Item => parseIntOr0 x.year)).lex
    (cmpStr_laws Item.title))).congr scoreCmp_eq

theorem then_isLE_iff {o₁ o₂ : Ordering} :
    (o₁.then o₂).isLE = true ↔ o₁ = .lt ∨ (o₁ = .eq ∧ o₂.isLE = true) := by
  cases o₁ <;> simp [Ordering.then] <;> rfl

theorem isLE_iff_ne_gt {o : Ordering} : o.isLE = true ↔ o ≠ .gt := by
  cases o <;> simp <;> rfl

theorem latestCmp_fin (a b : Item) (p q : ℚ) (ha : a.score = .fin p) (hb : b.score = .fin q) :
    latestCmp a b =
      (cmpLin (parseIntOr0 b.year) (parseIntOr0 a.year)).then
        ((cmpLin (dateOr0 b.scoreDate) (dateOr0 a.scoreDate)).then
          ((cmpLin q p).then (cmpStr a.title b.title))) := by
  rw [latestCmp_eq]
  unfold lexCmp byKeyDesc scoreLex
  rw [ha, hb, scoreStep_fin_fin]

theorem scoreCmp_fin (a b : Item) (p q : ℚ) (ha : a.score = .fin p) (hb : b.score = .fin q) :
    scoreCmp a b =
      (cmpLin q p).then
        ((cmpLin (parseIntOr0 b.year) (parseIntOr0 a.year)).then
          (cmpStr a.title b.title)) := by
  rw [scoreCmp_eq]
  unfold scoreLex lexCmp byKeyDesc
  rw [ha, hb, scoreStep_fin_fin]

theorem latest_isLE_iff_fin (a b : Item) (p q : ℚ) (ha : a.score = .fin p)
    (hb : b.score = .fin q) : (latestCmp a b).isLE = true ↔ LatestSpecLe a b := by
  rw [latestCmp_fin a b p q ha hb]
  unfold LatestSpecLe
  rw [ha, hb]
  rw [then_isLE_iff, then_isLE_iff, then_isLE_iff,
    cmpLin_lt_iff, cmpLin_eq_iff, cmpLin_lt_iff, cmpLin_eq_iff,
    cmpLin_lt_iff, cmpLin_eq_iff, isLE_iff_ne_gt]
  simp [XRat.lt]

theorem score_isLE_iff_fin (a b : Item) (p q : ℚ) (ha : a.score = .fin p)
    (hb : b.score = .fin q) : (scoreCmp a b).isLE = true ↔ ScoreSpecLe a b := by
  rw [scoreCmp_fin a b p q ha hb]
  unfold ScoreSpecLe
  rw [ha, hb]
  rw [then_isLE_iff, then_isLE_iff,
    cmpLin_lt_iff, cmpLin_eq_iff, cmpLin_lt_iff, cmpLin_eq_iff, isLE_iff_ne_gt]
  simp [XRat.lt]

theorem jsSortBy_perm {α : Type} (cmp : α → α → Ordering) (l : List α) :
    (jsSortBy cmp l).Perm l :=
  sortLe_perm _ l

theorem jsSortBy_pairwise {α : Type} {cmp : α → α → Ordering} (hc : CmpLaws cmp)
    (l : List α) : (jsSortBy cmp l).Pairwise (fun a b => (cmp a b).isLE = true) :=
  sortLe_pairwise hc.isLE_total (fun _ _ _ h₁ h₂ => hc.isLE_trans h₁ h₂) l

theorem jsSortBy_stable {α : Type} {cmp : α → α → Ordering} {a b : α} {l : List α}
    (hab : (cmp a b).isLE = true) (h : [a, b].Sublist l) :
    [a, b].Sublist (jsSortBy cmp l) :=
  sortLe_pair_stable hab h

theorem applySort_latest (l : List Item) : applySort l "latest" = jsSortBy latestCmp l := by
  simp [applySort]

theorem applySort_score (l : List Item) : applySort l "score" = jsSortBy scoreCmp l := by
  simp [applySort]

/-! ## Claim theorems -/

/-- C1 counterexample: the two reachable items `infB` and `infA` have
score `Infinity`, equal year and scoreDate, and titles in descending
order.  The comparator's score difference is `Infinity - Infinity`,
`NaN`, which passes the `!== 0` guard and is returned — a `SortCompare`
tie — so the stable sort keeps B before A and the output is not ordered
by the claimed chain, whose title tie-break demands A before B. -/
theorem latest_sort_infinity_counterexample :
    applySort [infB, infA] "latest" = [infB, infA] ∧
    ¬ (applySort [infB, infA] "latest").Pairwise LatestSpecLe := by
  have hout : applySort [infB, infA] "latest" = [infB, infA] := by decide
  refine ⟨hout, ?_⟩
  intro hp
  rw [hout] at hp
  have hBA : LatestSpecLe infB infA :=
    List.rel_of_pairwise_cons hp (List.mem_singleton.mpr rfl)
  have hnot : ¬ LatestSpecLe infB infA := by
    unfold LatestSpecLe
    decide
  exact hnot hBA

/-- C1 (corrected): `applySort "latest"` always returns a permutation of
its input and is stable on residual comparator ties; on lists whose
scores are all finite it orders by the claimed comparator chain — year
descending (numeric, parse failures treated as 0), then scoreDate
descending (parse failures treated as epoch), then score descending,
then title ascending — and in particular orders B(2020, 2021-01-01, 9)
before the equal-year, equal-date A with score 8; but two items whose
scores are both `+Infinity` (or both `-Infinity`) and that tie on year
and scoreDate compare as a `NaN` tie, skipping the title tie-break. -/
theorem latest_sort_finite_chain :
    (∀ l : List Item, (applySort l "latest").Perm l) ∧
    (∀ l : List Item, (∀ x ∈ l, x.score.isFinite = true) →
      (applySort l "latest").Pairwise LatestSpecLe) ∧
    (∀ (a b : Item) (l : List Item), latestCmp a b = .eq → [a, b].Sublist l →
      [a, b].Sublist (applySort l "latest")) ∧
    (∀ a b : Item, parseIntOr0 a.year = parseIntOr0 b.year →
      dateOr0 a.scoreDate = dateOr0 b.scoreDate →
      ((a.score = .posInf ∧ b.score = .posInf) ∨
        (a.score = .negInf ∧ b.score = .negInf)) →
      latestCmp a b = .eq) ∧
    applySort [latestA, latestB] "latest" = [latestB, latestA] := by
  refine ⟨?_, ?_, ?_, ?_, ?_⟩
  · intro l
    rw [applySort_latest]
    exact jsSortBy_perm _ _
  · intro l hfin
    rw [applySort_latest]
    refine (jsSortBy_pairwise latestCmp_laws l).imp_of_mem ?_
    intro a b ha hb hab
    have hfa : a.score.isFinite = true :=
      hfin a ((jsSortBy_perm latestCmp l).mem_iff.mp ha)
    have hfb : b.score.isFinite = true :=
      hfin b ((jsSortBy_perm latestCmp l).mem_iff.mp hb)
    rcases hpa : a.score with _ | p | _ <;> rw [hpa] at hfa <;>
      try simp [XRat.isFinite] at hfa
    rcases hpb : b.score with _ | q | _ <;> rw [hpb] at hfb <;>
      try simp [XRat.isFinite] at hfb
    exact (latest_isLE_iff_fin a b p q hpa hpb).mp hab
  · intro a b l heq hsub
    rw [applySort_latest]
    exact jsSortBy_stable (by rw [heq]; rfl) hsub
  · intro a b hy hd hs
    rcases hs with ⟨ha2, hb2⟩ | ⟨ha2, hb2⟩ <;>
      simp [latestCmp, sub_eq_zero_of_eq hy.symm, sub_eq_zero_of_eq hd.symm,
        ha2, hb2, XRat.sub, jsCmpOfNum]
  · have hAB : latestCmp latestA latestB = .gt := by
      rw [latestCmp_fin latestA latestB 8 9 rfl rfl]
      decide
    rw [applySort_latest]
    simp [jsSortBy, sortLe, insertLe, hAB, show Ordering.gt.isLE = false from rfl]

/-- Witness for C1: two items tied on every `latest` key (equal year,
date, finite score and title) keep their input order after sorting. -/
theorem latest_sort_finite_chain_witness :
    [tieX, tieY].Sublist (applySort [tieX, tieY] "latest") :=
  latest_sort_finite_chain.2.2.1 tieX tieY [tieX, tieY]
    (by rw [latestCmp_fin tieX tieY 5 5 rfl rfl]; decide) (List.Sublist.refl _)

/-- C6 counterexample: `infAlpha` (2018) and `infBeta` (2019) both have
score `Infinity`: the score comparator's difference is `NaN`, returned
as a tie without reaching the year tie-break, so the output keeps Alpha
before Beta and is not ordered by the claimed score-then-year-then-title
chain (which demands Beta first). -/
theorem score_sort_infinity_counterexample :
    applySort [infAlpha, infBeta] "score" = [infAlpha, infBeta] ∧
    ¬ (applySort [infAlpha, infBeta] "score").Pairwise ScoreSpecLe := by
  have hout : applySort [infAlpha, infBeta] "score" = [infAlpha, infBeta] := by decide
  refine ⟨hout, ?_⟩
  intro hp
  rw [hout] at hp
  have hAB : ScoreSpecLe infAlpha infBeta :=
    List.rel_of_pairwise_cons hp (List.mem_singleton.mpr rfl)
  have hnot : ¬ ScoreSpecLe infAlpha infBeta := by
    unfold ScoreSpecLe
    decide
  exact hnot hAB

/-- C6 (corrected): `applySort "score"` always returns a permutation; on
lists whose scores are all finite it orders by score descending, then
year descending, then title ascending — in particular the equal-score
("Beta", 2019, 7.0) comes out before ("Alpha", 2018, 7.0) by the year
tie-break; but two items whose scores are both `+Infinity` (or both
`-Infinity`) compare as a `NaN` tie, skipping the year and title
tie-breaks. -/
theorem score_sort_finite_chain :
    (∀ l : List Item, (applySort l "score").Perm l) ∧
    (∀ l : List Item, (∀ x ∈ l, x.score.isFinite = true) →
      (applySort l "score").Pairwise ScoreSpecLe) ∧
    (∀ a b : Item,
      ((a.score = .posInf ∧ b.score = .posInf) ∨
        (a.score = .negInf ∧ b.score = .negInf)) →
      scoreCmp a b = .eq) ∧
    applySort [scoreAlpha, scoreBeta] "score" = [scoreBeta, scoreAlpha] := by
  refine ⟨?_, ?_, ?_, ?_⟩
  · intro l
    rw [applySort_score]
    exact jsSortBy_perm _ _
  · intro l hfin
    rw [applySort_score]
    refine (jsSortBy_pairwise scoreCmp_laws l).imp_of_mem ?_
    intro a b ha hb hab
    have hfa : a.score.isFinite = true :=
      hfin a ((jsSortBy_perm scoreCmp l).mem_iff.mp ha)
    have hfb : b.score.isFinite = true :=
      hfin b ((jsSortBy_perm scoreCmp l).mem_iff.mp hb)
    rcases hpa : a.score with _ | p | _ <;> rw [hpa] at hfa <;>
      try simp [XRat.isFinite] at hfa
    rcases hpb : b.score with _ | q | _ <;> rw [hpb] at hfb <;>
      try simp [XRat.isFinite] at hfb
    exact (score_isLE_iff_fin a b p q hpa hpb).mp hab
  · intro a b hs
    rcases hs with ⟨ha2, hb2⟩ | ⟨ha2, hb2⟩ <;>
      simp [scoreCmp, ha2, hb2, XRat.sub, jsCmpOfNum]
  · have hAB : scoreCmp scoreAlpha scoreBeta = .gt := by
      rw [scoreCmp_fin scoreAlpha scoreBeta 7 7 rfl rfl]
      decide
    rw [applySort_score]
    simp [jsSortBy, sortLe, insertLe, hAB, show Ordering.gt.isLE = false from rfl]

/-- Witness for C6: the `NaN`-tie clause applied to the two
`Infinity`-scored items. -/
theorem score_sort_finite_chain_witness :
    scoreCmp infAlpha infBeta = .eq :=
  score_sort_finite_chain.2.2.1 infAlpha infBeta (Or.inl ⟨rfl, rfl⟩)

/-- C10: calling `applySort` with a key other than `latest`, `score` or
`date` leaves the list unchanged — an unrecognized sort mode is the
identity on the filtered list. -/
theorem unknown_sort_identity :
    ∀ key : String, key ≠ "latest" → key ≠ "score" → key ≠ "date" →
      ∀ l : List Item, applySort l key = l := by
  intro key h1 h2 h3 l
  simp [applySort, h1, h2, h3]

/-- Witness for C10: the key "year" (a plausible stray `data-sort` value)
sorts nothing. -/
theorem unknown_sort_identity_witness :
    applySort [⟨"Z", .fin 1, "", "", "", ""⟩] "year" = [⟨"Z", .fin 1, "", "", "", ""⟩] :=
  unknown_sort_identity "year" (by decide) (by decide) (by decide) _

/-! ## Lemmas: filter engine -/

theorem listInfix_iff {n h : List Char} : listInfix n h = true ↔ n <:+: h := by
  induction h with
  | nil =>
    show List.isPrefixOf n [] = true ↔ _
    rw [List.isPrefixOf_iff_prefix]
    constructor
    · intro hp
      exact hp.isInfix
    · intro hp
      rw [List.infix_nil.mp hp]
  | cons c t ih =>
    show (List.isPrefixOf n (c :: t) || listInfix n t) = true ↔ _
    rw [Bool.or_eq_true, List.isPrefixOf_iff_prefix, ih, List.infix_cons_iff]

theorem strIncludes_iff {hay needle : String} :
    strIncludes hay needle = true ↔ SubstringOf needle hay := by
  unfold strIncludes SubstringOf
  exact listInfix_iff

theorem matchesSearch_iff {item : Item} {term : String} {keys : List SearchField} :
    matchesSearch item term keys = true ↔
      (term ≠ "" → ∃ k ∈ keys, SubstringOf term (lowerStr (fieldGet item k))) := by
  unfold matchesSearch
  split_ifs with h
  · simp [h]
  · rw [List.any_eq_true]
    constructor
    · rintro ⟨k, hk, hks⟩ _
      exact ⟨k, hk, strIncludes_iff.mp hks⟩
    · intro hh
      obtain ⟨k, hk, hks⟩ := hh h
      exact ⟨k, hk, strIncludes_iff.mpr hks⟩

theorem yearMatch_iff {selYear y : String} :
    ((if selYear ≠ "" then y == selYear else true) = true) ↔
      (selYear ≠ "" → y = selYear) := by
  split_ifs with h
  · simp [h]
  · simp [h]

/-- C2: for every item list and every combination of year filter, score
bounds and search term, the filter stage returns exactly the items
satisfying the conjunction of the year-equality predicate (when a year is
selected), the score-interval predicate, and the case-insensitive
substring search (OR across the category's search fields, empty term
matching everything) — and it preserves the input's relative order
(the result is a sublist of the input). -/
theorem filter_engine_spec :
    ∀ (data : List Item) (minStr maxStr yearStr searchStr : Option String)
      (keys : List SearchField),
      (renderFilter data minStr maxStr yearStr searchStr keys).Sublist data ∧
      (∀ item : Item,
        item ∈ renderFilter data minStr maxStr yearStr searchStr keys ↔
          item ∈ data ∧
          (yearStr.getD "" ≠ "" → item.year = yearStr.getD "") ∧
          (XRat.le (getScoreBounds minStr maxStr).1 item.score = true ∧
           XRat.le item.score (getScoreBounds minStr maxStr).2 = true) ∧
          (jsTrim (jsNormalize searchStr) ≠ "" →
            ∃ k ∈ keys,
              SubstringOf (jsTrim (jsNormalize searchStr)) (lowerStr (fieldGet item k)))) := by
  intro data minStr maxStr yearStr searchStr keys
  constructor
  · exact List.filter_sublist _
  · intro item
    show item ∈ List.filter _ data ↔ _
    rw [List.mem_filter]
    refine and_congr Iff.rfl ?_
    rw [Bool.and_eq_true, Bool.and_eq_true, Bool.and_eq_true]
    rw [yearMatch_iff, matchesSearch_iff]
    tauto

/-- Witness for C2: with no bounds, no year and the term "x", the item
titled "Axe" is kept (its lowered title contains "x"). -/
theorem filter_engine_spec_witness :
    (⟨"Axe", .fin 3, "", "", "", ""⟩ : Item) ∈
      renderFilter [⟨"Axe", .fin 3, "", "", "", ""⟩] none none none (some "x")
        [SearchField.title, SearchField.person] :=
  (filter_engine_spec [⟨"Axe", .fin 3, "", "", "", ""⟩] none none none (some "x")
      [SearchField.title, SearchField.person]).2 _ |>.mpr
    ⟨by decide, by decide, by decide, by
      intro _
      exact ⟨SearchField.title, by decide, strIncludes_iff.mp (by decide)⟩⟩

/-! ## Lemmas: score bounds -/

theorem XRat.le_total_of_not {a b : XRat} (h : XRat.le a b = false) :
    XRat.le b a = true := by
  cases a <;> cases b <;> simp_all [XRat.le]
  exact le_of_lt h

/-- C3: a missing or non-numeric min/max input yields the default bound
(`-Infinity` for min, `+Infinity` for max); when both inputs parse and the
min exceeds the max the two are swapped; the resulting interval is always
valid (lower ≤ upper); and filtering with both bounds unset is the same
as filtering with no score predicate at all. -/
theorem score_bounds_spec :
    (∀ minStr maxStr : Option String,
      ((jsParseFloat minStr).isFinite = false →
        (getScoreBounds minStr maxStr).1 = .negInf) ∧
      ((jsParseFloat maxStr).isFinite = false →
        (getScoreBounds minStr maxStr).2 = .posInf) ∧
      (∀ p q : ℚ, jsParseFloat minStr = .fin p → jsParseFloat maxStr = .fin q →
        q < p → getScoreBounds minStr maxStr = (.fin q, .fin p)) ∧
      XRat.le (getScoreBounds minStr maxStr).1 (getScoreBounds minStr maxStr).2 = true) ∧
    (∀ (data : List Item) (yearStr searchStr : Option String) (keys : List SearchField),
      renderFilter data none none yearStr searchStr keys =
        data.filter (fun item =>
          (if yearStr.getD "" ≠ "" then item.year == yearStr.getD "" else true) &&
            matchesSearch item (jsTrim (jsNormalize searchStr)) keys)) := by
  constructor
  · intro minStr maxStr
    refine ⟨?_, ?_, ?_, ?_⟩
    · intro h
      unfold getScoreBounds
      simp [h, XRat.gt, XRat.le]
    · intro h
      unfold getScoreBounds
      by_cases hm : (jsParseFloat minStr).isFinite <;> simp [h, hm, XRat.gt, XRat.le]
    · intro p q hp hq hlt
      unfold getScoreBounds
      simp [hp, hq, JsFloat.isFinite, JsFloat.toRat, XRat.gt, XRat.le, not_le.mpr hlt]
    · unfold getScoreBounds
      set m : XRat := if (jsParseFloat minStr).isFinite then
        .fin (jsParseFloat minStr).toRat else .negInf with hm
      set M : XRat := if (jsParseFloat maxStr).isFinite then
        .fin (jsParseFloat maxStr).toRat else .posInf with hM
      by_cases hswap : XRat.gt m M = true
      · have hle : XRat.le m M = false := by
          unfold XRat.gt at hswap
          simpa using hswap
        simp [hswap, XRat.le_total_of_not hle]
      · have hle : XRat.le m M = true := by
          unfold XRat.gt at hswap
          simpa using hswap
        simp [hswap, hle]
  · intro data yearStr searchStr keys
    unfold renderFilter
    refine List.filter_congr ?_
    intro item _
    have hb : getScoreBounds none none = (XRat.negInf, XRat.posInf) := rfl
    have h1 : ∀ x : XRat, XRat.le .negInf x = true := fun x => by cases x <;> rfl
    have h2 : XRat.le item.score .posInf = true := by cases item.score <;> rfl
    simp [hb, h1, h2]

/-- Witness for C3: a non-numeric min control text yields the default
lower bound. -/
theorem score_bounds_spec_witness :
    (getScoreBounds (some "abc") (some "5")).1 = .negInf :=
  (score_bounds_spec.1 (some "abc") (some "5")).1 (by decide)

/-! ## Lemmas: record mapper -/

theorem jsOrZero_ne_nan (v : JsFloat) : jsOrZero v ≠ .nan := by
  cases v <;> simp [jsOrZero]

/-- C4: the record mapper drops exactly the rows whose title is empty or
whitespace-only after trimming (mapping then filtering on a non-blank
trimmed title), and on the two concrete rows {Title:"X",Score:"9.5",
Year:"2020"} and {Title:"",Score:"3"} it produces the single item with
title "X", score 9.5 and year "2020". -/
theorem record_mapper_drops_blank_titles :
    (∀ rows : List Row,
      mapRows mapRowMovies rows =
        (rows.filter (fun r => jsTrimOpt (rowGet r "Title") != "")).map mapRowMovies) ∧
    mapRows mapRowMovies [rowX, rowBlank] =
      [⟨"X", .fin (19 / 2 : ℚ), "2020", "", "", ""⟩] := by
  constructor
  · intro rows
    unfold mapRows
    rw [List.filter_map]
    rfl
  · rw [show ((19 : ℚ) / 2) = mkRat 19 2 by rw [Rat.mkRat_eq_div]; norm_num]
    decide

/-- C5 counterexample: the row {Title:"T",Score:"Infinity"} is mapped to
an item whose score is `Infinity` — not a finite number — because
`parseFloat("Infinity")` returns a truthy infinite value that the `|| 0`
fallback keeps. -/
theorem mapped_score_infinite :
    (mapRowMovies rowInf).score = .inf ∧
      ((mapRowMovies rowInf).score).isFinite = false := by
  decide

/-- C5 amended: the mapped score is never `NaN`; a missing, empty or
unparseable Score cell yields 0; and the score is finite except when the
Score text parses to `Infinity` or `-Infinity`. -/
theorem mapped_score_tolerant :
    (∀ row : Row, (mapRowMovies row).score ≠ .nan) ∧
    mapScore (some "") = .fin 0 ∧
    mapScore none = .fin 0 ∧
    (∀ s : String, jsParseFloatStr s = .nan → mapScore (some s) = .fin 0) ∧
    (∀ v : Option String, (mapScore v).isFinite = false →
      mapScore v = .inf ∨ mapScore v = .negInf) := by
  refine ⟨?_, by decide, by decide, ?_, ?_⟩
  · intro row
    exact jsOrZero_ne_nan _
  · intro s h
    show jsOrZero (jsParseFloatStr (if s = "" then "0" else s)) = .fin 0
    split_ifs with hs
    · decide
    · rw [h]
      rfl
  · intro v h
    cases v with
    | none => exact absurd h (by decide)
    | some s =>
      by_cases hs : s = ""
      · subst hs
        exact absurd h (by decide)
      · have hm : mapScore (some s) = jsOrZero (jsParseFloatStr s) := by
          show jsOrZero (jsParseFloatStr (if s = "" then "0" else s)) = _
          rw [if_neg hs]
        rw [hm] at h ⊢
        cases e : jsParseFloatStr s <;> rw [e] at h <;>
          simp [jsOrZero, JsFloat.isFinite] at h ⊢

/-! ## Lemmas: renderer and navigation -/

/-- C7 counterexample: rendering an empty filtered list leaves the mount
point with zero visual units — there is no "no results" placeholder
anywhere in `renderCategory`, even when prior content was on screen. -/
theorem render_empty_counterexample :
    renderCards [] = [] ∧
      renderInto (renderCards [⟨"Z", .fin 1, "", "", "", ""⟩]) [] = [] :=
  ⟨rfl, rfl⟩

/-- C7 amended: rendering an empty filtered list produces an empty
container (no placeholder of any kind); re-rendering with identical input
gives identical output regardless of what was rendered before, because
prior content is fully replaced; and the output is exactly one card per
item. -/
theorem render_replaces_content :
    renderCards [] = [] ∧
    (∀ (prev prev2 : List Card) (l : List Item), renderInto prev l = renderInto prev2 l) ∧
    (∀ (prev : List Card) (l : List Item), renderInto prev l = renderCards l) ∧
    (∀ l : List Item, (renderCards l).length = l.length) :=
  ⟨rfl, fun _ _ _ => rfl, fun _ _ => rfl, fun l => List.length_map l renderCard⟩

/-- C8 counterexample: after a failed movies fetch the cache slot is
still unwritten (`none`), and entering the category again triggers a new
fetch — the slot is not "written exactly once on the first successful or
failed fetch" and a retry happens without any page refresh. -/
theorem fetch_failure_counterexample :
    (fetchCategoryStep (categoryCfg .movies) none .err).data = none ∧
    (fetchCategoryStep (categoryCfg .movies) none .err).logged = true ∧
    (fetchCategoryStep (categoryCfg .movies) none .err).mount = .couldNotLoad ∧
    (showSectionStep "movies"
      (setData initData .movies (fetchCategoryStep (categoryCfg .movies) none .err).data)
      .err).2 = true :=
  ⟨rfl, rfl, rfl, rfl⟩

/-- C8 amended: a transport failure is caught, logged, and surfaced as
the static "could not load" placeholder, while the cache slot keeps its
previous value (the catch branch never writes `st.data`); a successful
fetch writes the merged mapped rows; and any category whose slot is still
null triggers a fetch on entry — so a failed category is retried on the
next entry rather than only by a page refresh. -/
theorem fetch_error_handling :
    ∀ (lbl : String) (gids : List String) (mr : Row → MappedItem)
      (cur : Option (List MappedItem)),
      gids ≠ [] →
      (fetchCategoryStep ⟨lbl, gids, some mr⟩ cur .err = ⟨cur, .couldNotLoad, true⟩) ∧
      (∀ tables, fetchCategoryStep ⟨lbl, gids, some mr⟩ cur (.ok tables) =
        ⟨some (tables.flatMap (fun rows => mapRows mr rows)), .rendered, false⟩) ∧
      (∀ (st : AppData) (k : CatKey) (res : FetchResult), st k = none →
        (showSectionStep (idOfCat k) st res).2 = true) := by
  intro lbl gids mr cur hg
  refine ⟨?_, ?_, ?_⟩
  · simp [fetchCategoryStep, hg]
  · intro tables
    simp [fetchCategoryStep, hg]
  · intro st k res hk
    cases k <;> simp [showSectionStep, catOfId, idOfCat, hk]

/-- Witness for C8: the concrete movies configuration with an empty cache
and a failed fetch. -/
theorem fetch_error_handling_witness :
    fetchCategoryStep ⟨"Movies", ["1920189918"], some mapRowMovies⟩ none .err =
      ⟨none, .couldNotLoad, true⟩ :=
  (fetch_error_handling "Movies" ["1920189918"] mapRowMovies none (by decide)).1

theorem catOfId_idOfCat (k : CatKey) : catOfId (idOfCat k) = some k := by
  cases k <;> rfl

theorem countFetches_movies_cached :
    ∀ (evs : List (String × FetchResult)) (st : AppData) (d : List MappedItem),
      st .movies = some d → (∀ e ∈ evs, e.1 = "movies") → countFetches st evs = 0 := by
  intro evs
  induction evs with
  | nil => intro st d _ _; rfl
  | cons ev evs ih =>
    intro st d hd hall
    have h1 : ev.1 = "movies" := hall ev (List.mem_cons_self ev evs)
    have hstep : showSectionStep ev.1 st ev.2 = (st, false) := by
      rw [h1]
      simp [showSectionStep, catOfId, hd]
    show (if (showSectionStep ev.1 st ev.2).2 then 1 else 0) +
      countFetches (showSectionStep ev.1 st ev.2).1 evs = 0
    rw [hstep]
    simp only [if_neg (by simp : ¬(false = true))]
    simpa using ih st d hd (fun e he => hall e (List.mem_cons_of_mem ev he))

/-- C9 counterexample: two successive entries to the movies category with
a failing transport trigger two fetches — the pipeline is not triggered
"exactly once", because the failed fetch leaves `items` null and the next
entry fetches again. -/
theorem double_fetch_on_failure :
    countFetches initData [("movies", .err), ("movies", .err)] = 2 := rfl

/-- C9 amended: entering a category whose slot is null triggers the
fetch pipeline, and entering one whose slot is populated reuses the cache
unchanged with no fetch; once a movies fetch succeeds, any further
movies entries trigger no fetch (so with a successful first fetch the
pipeline runs exactly once); the hash router shows the named known
section and hides all others, and an unknown or empty fragment routes
home. -/
theorem navigation_spec :
    (∀ (st : AppData) (k : CatKey) (res : FetchResult) (d : List MappedItem),
      st k = some d → showSectionStep (idOfCat k) st res = (st, false)) ∧
    (∀ (st : AppData) (k : CatKey) (res : FetchResult), st k = none →
      (showSectionStep (idOfCat k) st res).2 = true) ∧
    (∀ (tables : List (List Row)) (evs : List (String × FetchResult)),
      (∀ e ∈ evs, e.1 = "movies") →
      countFetches initData (("movies", FetchResult.ok tables) :: evs) = 1) ∧
    (∀ hash : String,
      ((sectionIds.contains (⟨stripHash hash.data⟩ : String) ∧
          (⟨stripHash hash.data⟩ : String) ≠ "") →
        hashTarget hash = ⟨stripHash hash.data⟩) ∧
      (¬(sectionIds.contains (⟨stripHash hash.data⟩ : String) ∧
          (⟨stripHash hash.data⟩ : String) ≠ "") →
        hashTarget hash = "home")) ∧
    (∀ id sec : String, sectionHidden id sec = false ↔ sec = id) := by
  refine ⟨?_, ?_, ?_, ?_, ?_⟩
  · intro st k res d hd
    rw [showSectionStep, catOfId_idOfCat]
    simp [hd]
  · intro st k res hk
    rw [showSectionStep, catOfId_idOfCat]
    simp [hk]
  · intro tables evs hall
    have hstep : showSectionStep "movies" initData (.ok tables) =
        (setData initData .movies
          (some (tables.flatMap (fun rows => mapRows mapRowMovies rows))), true) := by
      simp [showSectionStep, catOfId, initData, fetchCategoryStep, categoryCfg]
    show (if (showSectionStep "movies" initData (.ok tables)).2 then 1 else 0) +
      countFetches (showSectionStep "movies" initData (.ok tables)).1 evs = 1
    rw [hstep]
    have hc : (setData initData .movies
        (some (tables.flatMap (fun rows => mapRows mapRowMovies rows)))) .movies =
        some (tables.flatMap (fun rows => mapRows mapRowMovies rows)) := rfl
    rw [countFetches_movies_cached evs _ _ hc hall]
    rfl
  · intro hash
    constructor
    · intro h
      rw [hashTarget, if_pos h]
    · intro h
      rw [hashTarget, if_neg h]
  · intro id sec
    unfold sectionHidden
    simp [bne]

/-- Witness for C9: after a successful (empty) movies fetch, a second
entry with a failing transport does not fetch again — one fetch total. -/
theorem navigation_spec_witness :
    countFetches initData [("movies", FetchResult.ok []), ("movies", .err)] = 1 :=
  navigation_spec.2.2.1 [] [("movies", .err)] (by decide)
